import Mathlib

/-!
Verification of the TRPX 2.0 TERSE/PROLIX codec (repository senikm/trpx2.0).

This file shallowly embeds the bit-level codec of `Terse.hpp` and the bit
queue of `Bitqueue.hpp`:

* the bit stream written by `Bitqueue_push_back` is modelled as a
  `List Bool` in stream order (bit `i` of the stream is the bit at
  position `i`, i.e. bit `i % 8` of byte `i / 8`, matching the
  little-endian bit order of the 64-bit buffered writer);
* `push_back(B, val)` appends the low `B` bits of `val`, least
  significant first;
* `pop(B)` reads `B` bits at the current position; positions past the
  written prefix read as `0`, which is exactly the content of the final
  flushed 64-bit word of the writer (`d_buffer` holds zeros above the
  pending bits and the destructor flushes the whole word);
* machine integers are `Nat` (unsigned values of bit depth `P` live
  below `2 ^ P`, wrap-around arithmetic is explicit `% 2 ^ P`) and
  `Int` for signed pixel data.

Element types are represented by their bit depth `P ∈ {8,16,32,64}`.
All definitions are executable and translated from the C++ source;
the few places where the C++ has no defined behaviour are noted at the
definition concerned.
-/

namespace Trpx

/-- Bits of `v`, least significant first: the semantic content of
`Bitqueue_push_back::push_back<B>(val)` for an in-range unsigned `val`. -/
def pushBits (w v : Nat) : List Bool :=
  (List.range w).map (fun i => v.testBit i)

/-- Value of a bit list, bit 0 first (inverse of `pushBits`). -/
def bitsToNat : List Bool → Nat
  | [] => 0
  | b :: t => (if b then 1 else 0) + 2 * bitsToNat t

/-- Read `w` bits at position `pos` of stream `s`; bits past the end of
`s` read as `0`.  Models `Bitqueue_pop::pop` at a tracked bit position.
The zero-extension is faithful exactly for reads inside the STORED frame
bytes: the writer's flushed final word is zero above the written prefix,
so bits between the written prefix and the end of the resized frame are
really 0; bits beyond the stored frame bytes, however, come from an
uninitialized `d_buffer` in the program (the `Bitqueue_pop` constructor
copies only `min(size, 8)` bytes), so no theorem below lets a value that
it asserts depend on a read past the stored bytes — such over-reads are
only ever stated as position facts. -/
def readBits (s : List Bool) (pos w : Nat) : Nat :=
  bitsToNat ((s.drop pos).take w)

/-- Concat-map over a list (used for per-value payload pushes). -/
def catMap (f : α → List β) : List α → List β
  | [] => []
  | x :: xs => f x ++ catMap f xs

/-- Fuel-driven bit length (number of binary digits), kernel-computable. -/
def blen : Nat → Nat → Nat
  | 0, _ => 0
  | f + 1, n => if n = 0 then 0 else blen f (n / 2) + 1

/-- Bit length of `n`: the `r` computed by the trailing loop of
`Terse::f_most_significant_bit` (`for ( ; setbits; setbits>>=1, ++r);`). -/
def bitlen (n : Nat) : Nat := blen n n

/-- `f_most_significant_bit(span)` for unsigned values: bit length of the
bitwise OR of the block, capped at the element width `P`. -/
def f_most_significant_bit_u (P : Nat) (vals : List Nat) : Nat :=
  min (bitlen (vals.foldl (· ||| ·) 0)) P

/-- Contribution of one signed value to the OR accumulator of
`f_most_significant_bit`: `(val == -1) ? 1 : std::abs(val) << 1`. -/
def sigContrib (v : Int) : Nat :=
  if v = -1 then 1 else 2 * v.natAbs

/-- `f_most_significant_bit(span)` for signed values. -/
def f_most_significant_bit_s (P : Nat) (vals : List Int) : Nat :=
  min (bitlen (vals.foldl (fun a v => a ||| sigContrib v) 0)) P

/-- Single-value `f_most_significant_bit(val)` for an unsigned value of
width `P`. -/
def f_msb_val (P v : Nat) : Nat := min (bitlen v) P

/-- Single-value `f_most_significant_bit` at type `std::size_t` (used for
the radix widths of Small-unsigned weak blocks). -/
def f_msb64 (v : Nat) : Nat := min (bitlen v) 64

/-- The `PUSH_BITS(prevbits, bits)` header writer of `Terse::f_compress`:
`1` if unchanged; else `0`+3 bits; else `0111`+2 bits; else `011111`+6. -/
def push_bits_header (prevbits bits : Nat) : List Bool :=
  if prevbits = bits then pushBits 1 0b1
  else if bits < 7 then pushBits 4 (bits <<< 1)
  else if bits < 10 then pushBits 6 (0b1110 + ((bits - 7) <<< 4))
  else pushBits 12 (0b111110 + ((bits - 10) <<< 6))

/-- The `BITS(bits)` header reader of `Terse::f_prolix_*`: pop 1 bit; if
`0`, pop 3 bits, escaping by 2 then 6 further bits; if `1` reuse `prev`.
Returns the new width and the new bit position. -/
def read_bits_header (s : List Bool) (pos prev : Nat) : Nat × Nat :=
  if readBits s pos 1 = 0 then
    let b := readBits s (pos + 1) 3
    if b = 7 then
      let b2 := b + readBits s (pos + 4) 2
      if b2 = 10 then (b2 + readBits s (pos + 6) 6, pos + 12)
      else (b2, pos + 6)
    else (b, pos + 4)
  else (prev, pos + 1)

/-- Two's-complement low `w` bits of a signed value, as pushed by
`Bitqueue_push_back` (`static_cast<make_unsigned_t<T>>(val) & mask`). -/
def twosLow (w : Nat) (v : Int) : Nat := (v % ((2 : Int) ^ w)).toNat

/-- `Terse::f_compress<Signed>`: per block of `B` values emit the
`PUSH_BITS` header for the block's significant-bit count, then each value
as a two's-complement field of that width.  Signed mode writes no 18-bit
mode prefix. -/
def f_compress_signed (P B : Nat) (data : List Int) : List Bool :=
  let V := data.length
  let nblocks := (V + B - 1) / B
  ((List.range nblocks).foldl (fun (st : Nat × List Bool) i =>
    let blk := (data.drop (i * B)).take B
    let sb := f_most_significant_bit_s P blk
    (sb, st.2 ++ push_bits_header st.1 sb ++
      catMap (fun v => pushBits sb (twosLow sb v)) blk)) (0, [])).2

/-- `Terse::f_compress<Unsigned>`: 18-bit prefix `0b11_1111_1111_1111_1000`,
then per block the header; a block whose width equals `P` is a masked
block: all values are shifted by `+1 (mod 2^P)`, a second header against
the carried `prevmasked_bits` is emitted and the shifted values follow.
One corner is idealised: for a masked block the source shifts into a
`d_block`-sized `Unique_array` and pushes that whole buffer, so a SHORT
final masked block would also push the buffer's uninitialized tail; this
model pushes only the actual block.  No theorem below reaches that
corner (its masked blocks are all full). -/
def f_compress_unsigned (P B : Nat) (data : List Nat) : List Bool :=
  let V := data.length
  let nblocks := (V + B - 1) / B
  pushBits 18 0b111111111111111000 ++
  ((List.range nblocks).foldl (fun (st : Nat × Nat × List Bool) i =>
    let blk := (data.drop (i * B)).take B
    let sb := f_most_significant_bit_u P blk
    let hdr := push_bits_header st.1 sb
    if sb ≠ P then
      (sb, st.2.1, st.2.2 ++ hdr ++ catMap (fun v => pushBits sb v) blk)
    else
      let buffer := blk.map (fun v => (v + 1) % 2 ^ P)
      let mb := f_most_significant_bit_u P buffer
      (sb, mb, st.2.2 ++ hdr ++ push_bits_header st.2.1 mb ++
        catMap (fun v => pushBits mb v) buffer)) (0, 0, [])).2.2

/-- `Terse::f_prolix_signed` decompressing into an unsigned element type
of width `P` (no sign extension: `is_negative` is `0`, stored values are
masked to the popped width and truncated to `T`). Starts at stream
position 0: the function re-creates its own `Bitqueue_pop`. -/
def f_prolix_signed_u (P B V : Nat) (s : List Bool) : List Nat :=
  let nblocks := (V + B - 1) / B
  ((List.range nblocks).foldl (fun (st : Nat × Nat × List Nat) i =>
    let len := min B (V - i * B)
    let (sb, pos) := read_bits_header s st.2.1 st.1
    let vals := (List.range len).map (fun j => readBits s (pos + j * sb) sb % 2 ^ P)
    (sb, pos + len * sb, st.2.2 ++ vals)) (0, 0, [])).2.2

/-- `Terse::f_prolix_unsigned`: consumes the 18-bit prefix, then per block
reads the width header; if the width equals `d_prolix_bits` the block is
masked: read the masked width against its own carried state, pop the
values and decrement each one (`--begin[i]`, i.e. `-1 mod 2^P`). -/
def f_prolix_unsigned (P B V : Nat) (s : List Bool) : List Nat :=
  let nblocks := (V + B - 1) / B
  ((List.range nblocks).foldl (fun (st : Nat × Nat × Nat × List Nat) i =>
    let len := min B (V - i * B)
    let (sb, pos) := read_bits_header s st.2.2.1 st.1
    if sb ≠ P then
      let vals := (List.range len).map (fun j => readBits s (pos + j * sb) sb % 2 ^ P)
      (sb, st.2.1, pos + len * sb, st.2.2.2 ++ vals)
    else
      let (mb, pos2) := read_bits_header s pos st.2.1
      let vals := (List.range len).map
        (fun j => (readBits s (pos2 + j * mb) mb + (2 ^ P - 1)) % 2 ^ P)
      (sb, mb, pos2 + len * mb, st.2.2.2 ++ vals)) (0, 0, 18, [])).2.2.2

/-! ### Small-unsigned mode (`Terse_mode::Small_unsigned`) -/

/-- `Terse::f_compress_weak_block` (block maximum `< 7`): a delta header
against the carried `previous_maxval`, then a body keyed on the maximum —
empty, 1-bit fields, 2-bit fields, or a single radix-`(max+1)` packed
integer of width `f_most_significant_bit(mult - 1)` where `mult` is
`(max+1)^len` for the actual block length `len`.
`previous_maxval - 1` is computed in promoted `int` arithmetic in C++, so
`previous_maxval == 0` can never satisfy it against a nonnegative `maxval`
other than via the all-zero first branch; the guard `pm = maxval + 1`
renders this exactly. -/
def f_compress_weak_block (blk : List Nat) (maxval pm : Nat) : List Bool :=
  let hdr :=
    if pm = 0 ∧ maxval = 0 then pushBits 1 0b1
    else if pm = maxval then pushBits 2 0b11
    else if pm + 1 = maxval then pushBits 2 0b10
    else if maxval ≠ 6 ∧ pm = maxval + 1 then pushBits 2 0b01
    else if pm = 6 ∧ maxval = 4 then pushBits 2 0b10
    else pushBits 5 (maxval <<< 2)
  let body :=
    match maxval with
    | 0 => []
    | 1 => catMap (fun v => pushBits 1 v) blk
    | 3 => catMap (fun v => pushBits 2 v) blk
    | _ =>
      let cm := blk.foldl (fun (p : Nat × Nat) v =>
        (p.1 + p.2 * v, p.2 * (maxval + 1))) (0, 1)
      pushBits (f_msb64 (cm.2 - 1)) cm.1
  hdr ++ body

/-- The literal (non-delta) strong header of
`Terse::f_compress_strong_block`, split by the width range exactly as the
source's three trailing branches (also used by `f_compress_masked` for the
initial `sizeof(T)*8` header). -/
def strong_literal_header (sb : Nat) : List Bool :=
  if sb < 10 then pushBits 8 (0b11100 + ((sb - 3) <<< 5))
  else if sb < 17 then pushBits 11 (0b11111100 + ((sb - 10) <<< 8))
  else pushBits 17 (0b11111111100 + ((sb - 17) <<< 11))

/-- `Terse::f_compress_strong_block` (block maximum `≥ 7`): a 2-bit delta
header against the carried `previous_significant_bits` when the width is
unchanged or off by one, else the literal escape, then the values as
fixed-width fields. -/
def f_compress_strong_block (blk : List Nat) (sb psb : Nat) : List Bool :=
  let hdr :=
    if psb = sb then pushBits 2 0b11
    else if psb + 1 = sb then pushBits 2 0b10
    else if psb = sb + 1 then pushBits 2 0b01
    else strong_literal_header sb
  hdr ++ catMap (fun v => pushBits sb v) blk

/-- Loop body of `Terse::f_compress_masked`: each block is shifted by
`+1 (mod 2^P)` and re-dispatched to the weak or strong encoder on the
shifted values; after a block that does not end the frame, a continuation
bit records whether the next raw block still contains the all-ones value
`2^P - 1` (`1` = masked run continues, `0` = run ends, `from` is left at
the current block so the outer loop resumes after it).
Returns (bits, final `from`, `prevmax`, `prevbits`). -/
def su_masked_go (P blkSz V : Nat) (data : List Nat) :
    Nat → Nat → Nat → Nat → List Bool × Nat × Nat × Nat
  | _, pm, pb, 0 => ([], 0, pm, pb)
  | fr, pm, pb, fuel + 1 =>
    if fr < V then
      let upto := min V (fr + blkSz)
      let buffer := ((data.drop fr).take (upto - fr)).map (fun v => (v + 1) % 2 ^ P)
      let m := buffer.foldl max 0
      let st :=
        if m < 7 then (f_compress_weak_block buffer m pm, m, pb)
        else (f_compress_strong_block buffer (f_msb_val P m) pb, pm, f_msb_val P m)
      if upto ≠ V then
        let nextmax := ((data.drop upto).take (min blkSz (V - upto))).foldl max 0
        if nextmax ≠ 2 ^ P - 1 then
          (st.1 ++ [false], fr, st.2.1, st.2.2)
        else
          let rest := su_masked_go P blkSz V data upto st.2.1 st.2.2 fuel
          (st.1 ++ [true] ++ rest.1, rest.2.1, rest.2.2.1, rest.2.2.2)
      else (st.1, fr + blkSz, st.2.1, st.2.2)
    else ([], fr, pm, pb)

/-- `Terse::f_compress_masked`: emit the literal strong header for the
full width `sizeof(T)*8 = P`, set `prevmax = 2^P - 1` and
`prevbits = P + 1`, then run the masked-block loop from the current
block. -/
def f_compress_masked (P blkSz V : Nat) (data : List Nat) (fr fuel : Nat) :
    List Bool × Nat × Nat × Nat :=
  let r := su_masked_go P blkSz V data fr (2 ^ P - 1) (P + 1) fuel
  (strong_literal_header P ++ r.1, r.2.1, r.2.2.1, r.2.2.2)

/-- Block loop of `Terse::f_compress<Small_unsigned>`: weak block if the
raw maximum is `< 7` (then `prevbits := 65`); masked run if the
significant-bit count equals `P`; otherwise a strong block (then
`prevmax := (2^P - 1) / 2`, the `numeric_limits<T>::max() / 2`
sentinel). -/
def su_compress_go (P blkSz V : Nat) (data : List Nat) :
    Nat → Nat → Nat → Nat → List Bool
  | _, _, _, 0 => []
  | fr, pm, pb, fuel + 1 =>
    if fr < V then
      let blk := (data.drop fr).take (min blkSz (V - fr))
      let m := blk.foldl max 0
      if m < 7 then
        f_compress_weak_block blk m pm ++
          su_compress_go P blkSz V data (fr + blkSz) m 65 fuel
      else
        let sb := f_msb_val P m
        if sb = P then
          let r := f_compress_masked P blkSz V data fr fuel
          r.1 ++ su_compress_go P blkSz V data (r.2.1 + blkSz) r.2.2.1 r.2.2.2 fuel
        else
          f_compress_strong_block blk sb pb ++
            su_compress_go P blkSz V data (fr + blkSz) ((2 ^ P - 1) / 2) sb fuel
    else []

/-- `Terse::f_compress<Small_unsigned>`: 18-bit prefix
`0b11_1111_1111_1111_1100`, block size clamped to 24, carried state
initialised to `prevmax = 0`, `prevbits = 0`. -/
def f_compress_small_unsigned (P B : Nat) (data : List Nat) : List Bool :=
  pushBits 18 0b111111111111111100 ++
    su_compress_go P (min B 24) data.length data 0 0 0 (data.length + 1)

/-- `Terse::f_get_max`: the Small-unsigned header reader.  One bit `1`
with `max == 0` repeats the all-zero block; otherwise a second bit forms
the 2-bit flag: `11` keep, `10` decrement `bits` and `max`, `01`
increment `bits` and bump `max` (with `max == 6 ↦ 4`), `00` a 3-bit
literal whose value 7 escapes to the strong widths (then
`max = numeric_limits<T>::max() / 2`).  `max` wraps modulo `2^P`
(type `T`) and `bits` modulo `2^8` (type `uint8_t`), as in the source.
Returns (`max`, `bits`, new position). -/
def f_get_max (P : Nat) (s : List Bool) (pos mx bits : Nat) : Nat × Nat × Nat :=
  let f1 := readBits s pos 1
  if f1 = 1 ∧ mx = 0 then (mx, bits, pos + 1)
  else
    let flag := 2 * f1 + readBits s (pos + 1) 1
    if flag = 0b11 then (mx, bits, pos + 2)
    else if flag = 0b10 then
      ((mx + (2 ^ P - 1)) % 2 ^ P, (bits + 255) % 256, pos + 2)
    else if flag = 0b01 then
      ((if mx = 6 then mx - 2 else (mx + 1) % 2 ^ P), (bits + 1) % 256, pos + 2)
    else
      let b3 := readBits s (pos + 2) 3
      if b3 = 7 then
        let mxv := (2 ^ P - 1) / 2
        let b := 3 + readBits s (pos + 5) 3
        if b = 10 then
          let b2 := b + readBits s (pos + 8) 3
          if b2 = 17 then (mxv, b2 + readBits s (pos + 11) 6, pos + 17)
          else (mxv, b2, pos + 11)
        else (mxv, b, pos + 8)
      else (b3, b3, pos + 5)

/-- Digits of the radix decode loop: value `i` of a packed integer `val`
in base `r` (`data_block[i] = val % r; val /= r;`). -/
def radixDigit (val r i : Nat) : Nat := val / r ^ i % r

/-- `Terse::f_prolix_small_unsigned_masked`: reset `bits` is done by the
caller; per block read the header; a strong block pops `bits`-wide values,
recomputes `max` as the maximum of the popped values and decrements each
value; a weak block decodes the radix-packed integer of width
`f_most_significant_bit(pow(max+1, block) - 1)` — note: the full clamped
block size, not the actual final block length — and decrements each digit.
A continuation bit then decides whether the masked run goes on.
Returns (values, final `from`, `max`, `bits`, position). -/
def su_prolix_masked (P blkSz V : Nat) (s : List Bool) :
    Nat → Nat → Nat → Nat → Nat → List Nat × Nat × Nat × Nat × Nat
  | fr, mx, bits, pos, 0 => ([], fr, mx, bits, pos)
  | fr, mx, bits, pos, fuel + 1 =>
    if fr < V then
      let upto := min V (fr + blkSz)
      let g := f_get_max P s pos mx bits
      let st :=
        if 7 ≤ g.1 then
          let raw := (List.range (upto - fr)).map
            (fun j => readBits s (g.2.2 + j * g.2.1) g.2.1 % 2 ^ P)
          (raw.map (fun v => (v + (2 ^ P - 1)) % 2 ^ P), raw.foldl max 0,
            g.2.2 + (upto - fr) * g.2.1)
        else
          let w := f_msb64 ((g.1 + 1) ^ blkSz - 1)
          let val := readBits s g.2.2 w
          ((List.range (upto - fr)).map
            (fun i => (radixDigit val (g.1 + 1) i + (2 ^ P - 1)) % 2 ^ P),
            g.1, g.2.2 + w)
      let cont := readBits s st.2.2 1
      if cont = 0 then (st.1, fr, st.2.1, g.2.1, st.2.2 + 1)
      else
        let rest := su_prolix_masked P blkSz V s (fr + blkSz) st.2.1 g.2.1 (st.2.2 + 1) fuel
        (st.1 ++ rest.1, rest.2.1, rest.2.2.1, rest.2.2.2.1, rest.2.2.2.2)
    else ([], fr, mx, bits, pos)

/-- Block loop of `Terse::f_prolix_small_unsigned` (integral output).
The radix cases (`max` in 2,4,5,6) read a packed integer of width
`f_most_significant_bit(pow(max+1, block) - 1)` computed from the full
clamped block size `block`, not from the actual block length.
Returns (values, final position). -/
def su_prolix_go (P blkSz V pbits : Nat) (s : List Bool) :
    Nat → Nat → Nat → Nat → Nat → List Nat × Nat
  | _, _, _, pos, 0 => ([], pos)
  | fr, mx, bits, pos, fuel + 1 =>
    if fr < V then
      let L := min V (fr + blkSz) - fr
      let g := f_get_max P s pos mx bits
      if g.1 = 0 then
        let r := su_prolix_go P blkSz V pbits s (fr + blkSz) g.1 g.2.1 g.2.2 fuel
        (List.replicate L 0 ++ r.1, r.2)
      else if g.1 = 1 then
        let vals := (List.range L).map (fun j => readBits s (g.2.2 + j) 1)
        let r := su_prolix_go P blkSz V pbits s (fr + blkSz) g.1 g.2.1 (g.2.2 + L) fuel
        (vals ++ r.1, r.2)
      else if g.1 = 3 then
        let vals := (List.range L).map (fun j => readBits s (g.2.2 + 2 * j) 2)
        let r := su_prolix_go P blkSz V pbits s (fr + blkSz) g.1 g.2.1 (g.2.2 + 2 * L) fuel
        (vals ++ r.1, r.2)
      else if g.1 = 7 then
        let vals := (List.range L).map (fun j => readBits s (g.2.2 + 3 * j) 3)
        let r := su_prolix_go P blkSz V pbits s (fr + blkSz) g.1 g.2.1 (g.2.2 + 3 * L) fuel
        (vals ++ r.1, r.2)
      else if g.1 < 7 then
        let w := f_msb64 ((g.1 + 1) ^ blkSz - 1)
        let val := readBits s g.2.2 w
        let vals := (List.range L).map (fun i => radixDigit val (g.1 + 1) i)
        let r := su_prolix_go P blkSz V pbits s (fr + blkSz) g.1 g.2.1 (g.2.2 + w) fuel
        (vals ++ r.1, r.2)
      else if g.2.1 = pbits then
        let mk := su_prolix_masked P blkSz V s fr g.1 0 g.2.2 fuel
        let r := su_prolix_go P blkSz V pbits s (mk.2.1 + blkSz) mk.2.2.1 mk.2.2.2.1
          mk.2.2.2.2 fuel
        (mk.1 ++ r.1, r.2)
      else
        let vals := (List.range L).map
          (fun j => readBits s (g.2.2 + j * g.2.1) g.2.1 % 2 ^ P)
        let r := su_prolix_go P blkSz V pbits s (fr + blkSz) g.1 g.2.1
          (g.2.2 + L * g.2.1) fuel
        (vals ++ r.1, r.2)
    else ([], pos)

/-- `Terse::f_prolix_small_unsigned` (integral output of width `P` with
`d_prolix_bits = P`): consume the 18-bit prefix, then run the block loop
with `max = 0`, `bits = 0`.  Returns (values, final bit position). -/
def f_prolix_small_unsigned (P B V : Nat) (s : List Bool) : List Nat × Nat :=
  su_prolix_go P (min B 24) V P s 0 0 0 18 (V + 1)

/-- `Terse::f_prolix`: pop the first 18 bits and dispatch on the mode
sentinel; any other pattern falls to the Signed grammar (each branch
re-creates its own `Bitqueue_pop`, so positions restart as in the
source).  Output as an unsigned element type of width `P`. -/
def f_prolix_nat (P B V : Nat) (s : List Bool) : List Nat :=
  let flag := readBits s 0 18
  if flag = 0b111111111111111100 then (f_prolix_small_unsigned P B V s).1
  else if flag = 0b111111111111111000 then f_prolix_unsigned P B V s
  else f_prolix_signed_u P B V s

/-! ### Byte positions of `Bitqueue_push_back` and the final frame size -/

/-- Byte-position state of `Bitqueue_push_back`: `off` is the distance in
bytes from the start of the buffer to `d_data` (8 bytes per spilled
64-bit word) and `pend` is `d_buffered_bits`, the bits still held in the
64-bit scratch word. -/
structure WState where
  off : Nat
  pend : Nat

/-- Effect of one `push_back` of width `B ≤ 64` on the byte position: add
`B` buffered bits, spilling one 8-byte word when 64 or more are
buffered. -/
def wpush (s : WState) (B : Nat) : WState :=
  if s.pend + B ≥ 64 then ⟨s.off + 8, s.pend + B - 64⟩ else ⟨s.off, s.pend + B⟩

/-- `Bitqueue_push_back::operator-(data())`: the count `f_compress` uses
for the final `terse_frame.resize`, namely
`d_data + (d_buffered_bits + 7) / 8 - start`. -/
def wlen (s : WState) : Nat := s.off + (s.pend + 7) / 8

/-- The closed form of the byte count `f_compress` trims a frame to,
in terms of the total number `n` of bits pushed: the spilled whole
64-bit words as 8 bytes each plus the pending bits rounded up to whole
bytes. -/
def resize_len (n : Nat) : Nat := 8 * (n / 64) + ((n % 64) + 7) / 8

/-- Byte size of a compressed frame: `resize_len` of the bit count (see
the theorem `c2_resize_length_formula` tying this to the writer). -/
def frame_byte_size (bits : List Bool) : Nat := resize_len bits.length

/-- Content of the resized frame vector: byte `k` holds stream bits
`8k..8k+7`; the bytes beyond the written prefix inside the flushed final
word are zero. -/
def terse_frame_bytes (bits : List Bool) : List Nat :=
  (List.range (resize_len bits.length)).map (fun k => readBits bits (8 * k) 8)

/-- Bits of a stored byte sequence, LSB of byte 0 first (inverse view
used when a parsed frame is handed back to `Bitqueue_pop`). -/
def bits_of_bytes (bytes : List Nat) : List Bool :=
  catMap (fun b => pushBits 8 b) bytes

/-! ### `Bitqueue_pop` at byte level, and the header-only frame walk -/

/-- Full state of `Bitqueue_pop`: `off` = bytes from the buffer start to
`d_data` (the word currently loaded), `buf` = `d_buffer` (the loaded
64-bit word, already shifted past consumed bits), `nb` =
`d_buffered_bits` (valid bits remaining in `buf`). -/
structure RState where
  off : Nat
  buf : Nat
  nb : Nat

/-- The 64-bit little-endian word `memcpy` loads at byte offset `k`;
bytes past the end of the buffer read as 0 (the constructor copies
`min(size, 8)` bytes into an otherwise uninitialised `d_buffer`; we model
the uninitialised remainder as 0, and the concrete walks below never
depend on bytes past the stored frame in a way that a nonzero value
would change the stated result). -/
def word64 (bytes : List Nat) (k : Nat) : Nat :=
  (List.range 8).foldr (fun i acc => bytes.getD (k + i) 0 + 256 * acc) 0

/-- `Bitqueue_pop` construction: load the first word, `d_buffered_bits`
starts at 64. -/
def bq_init (bytes : List Nat) : RState := ⟨0, word64 bytes 0, 64⟩

/-- `Bitqueue_pop::pop<B, uint8_t>` for `1 ≤ B ≤ 8`: take the low byte of
`d_buffer`, consume `B` bits (reloading the next word when fewer than `B`
remain), then mask to the low `B` bits (`p &= mask`; for `B = 8` the mask
is skipped but the low byte is already 8 bits). -/
def bq_pop_u8 (bytes : List Nat) (st : RState) (B : Nat) : Nat × RState :=
  if B ≤ st.nb then
    ((st.buf % 256) % 2 ^ B, ⟨st.off, st.buf >>> B, st.nb - B⟩)
  else
    let off' := st.off + 8
    let nbuf := word64 bytes off'
    let p := (st.buf % 256) ||| ((nbuf <<< st.nb) % 2 ^ 64 % 256)
    (p % 2 ^ B, ⟨off', nbuf >>> (B - st.nb), 64 + st.nb - B⟩)

/-- `Bitqueue_pop::pop<1, bool>`: the value is
`static_cast<bool>(d_buffer)`, i.e. whether ANY remaining buffered bit is
set — not bit 0 — after which one bit is consumed (`p &= mask` with a
`bool` mask `true` leaves the value unchanged). -/
def bq_pop_bool (bytes : List Nat) (st : RState) : Bool × RState :=
  if 1 ≤ st.nb then
    (st.buf ≠ 0, ⟨st.off, st.buf >>> 1, st.nb - 1⟩)
  else
    let off' := st.off + 8
    let nbuf := word64 bytes off'
    ((st.buf ≠ 0) || ((nbuf <<< st.nb) % 2 ^ 64 ≠ 0),
      ⟨off', nbuf >>> 1, 64 + st.nb - 1⟩)

/-- `Bitqueue_pop::skip(B)`: consume from the buffer when possible;
otherwise advance `d_data` by `8 + B / 64` BYTES (the source adds
`B / 64` bytes, not words), set `d_buffered_bits = 64 - B % 64` without
accounting for the bits already consumed from the current word, and leave
`d_buffer` untouched. -/
def bq_skip (st : RState) (B : Nat) : RState :=
  if B ≤ st.nb then ⟨st.off, st.buf, st.nb - B⟩
  else ⟨st.off + 8 + B / 64, st.buf, 64 - B % 64⟩

/-- `Bitqueue_pop::operator-(start)`:
`d_data + (d_buffered_bits + 7) / 8 - start`. -/
def bq_minus (st : RState) : Nat := st.off + (st.nb + 7) / 8

/-- One frame of the header-only walk of `Terse::f_fill_terse_frames`:
per block pop one header bit (`pop<1,bool>`); on `0` pop the 3-bit width
with its 2- and 6-bit escapes; then `skip(bits * block_len)`; finally the
frame size is `bitqueue - terse_begin` for a walk started at the blob
start. -/
def walk_frame_size (bytes : List Nat) (V B : Nat) : Nat :=
  let nblocks := (V + B - 1) / B
  bq_minus (((List.range nblocks).foldl (fun (st : Nat × RState) i =>
    let (b, s1) := bq_pop_bool bytes st.2
    let (sig, s2) :=
      if b = false then
        let (s3, t3) := bq_pop_u8 bytes s1 3
        if s3 = 7 then
          let (s2b, t2) := bq_pop_u8 bytes t3 2
          if 7 + s2b = 10 then
            let (s6, t6) := bq_pop_u8 bytes t2 6
            (10 + s6, t6)
          else (7 + s2b, t2)
        else (s3, t3)
      else (st.1, s1)
    (sig, bq_skip s2 (sig * min B (V - i * B)))) (0, bq_init bytes)).2)

/-! ### The Terse container -/

/-- The container fields of `class Terse` that the stream format carries
(metadata strings and frame contents are byte lists). -/
structure TerseC where
  d_prolix_bits : Nat
  d_signed : Bool
  d_block : Nat
  d_size : Nat
  d_dim : List Nat
  d_metadata : List (List Nat)
  d_terse_frames : List (List Nat)
  deriving DecidableEq

/-- `Terse::number_of_frames()`. -/
def number_of_frames (t : TerseC) : Nat := t.d_terse_frames.length

/-- `Terse::terse_size()`: total compressed bytes over all frames. -/
def terse_size (t : TerseC) : Nat := (t.d_terse_frames.map List.length).sum

/-- `Terse::block_size(std::size_t const&)`:
`d_block = number_of_frames() == 0 ? block : d_block;` — a total,
`noexcept` setter that silently keeps the old block size on a non-empty
container. -/
def block_size_set (t : TerseC) (b : Nat) : TerseC :=
  { t with d_block := if number_of_frames t = 0 then b else t.d_block }

/-- Space-separated decimal rendering of a number list (the loops of
`f_write_metadata` that write `dimensions`, `memory_sizes_of_frames` and
`metadata_string_sizes`). -/
def natsSpaced (l : List Nat) : String :=
  String.intercalate " " (l.map toString)

/-- The attribute list of the XML header, in the order and under the
conditions with which `Terse::f_write_metadata` emits them
(`dimensions` only when `d_dim` is nonempty, `metadata_string_sizes`
only when `d_metadata` is nonempty; `memory_sizes_of_frames` is always
written). -/
def write_attrs (t : TerseC) : List (String × String) :=
  [("prolix_bits", toString t.d_prolix_bits),
   ("signed", if t.d_signed then "1" else "0"),
   ("block", toString t.d_block),
   ("number_of_values", toString t.d_size)] ++
  (if t.d_dim.isEmpty then [] else [("dimensions", natsSpaced t.d_dim)]) ++
  [("number_of_frames", toString (number_of_frames t)),
   ("memory_sizes_of_frames", natsSpaced (t.d_terse_frames.map List.length)),
   ("memory_size", toString (terse_size t))] ++
  (if t.d_metadata.isEmpty then []
   else [("metadata_string_sizes", natsSpaced (t.d_metadata.map List.length))])

/-- The serialized XML tag `<Terse …/>` exactly as `f_write_metadata`
streams it. -/
def header_string (t : TerseC) : String :=
  (write_attrs t).foldl (fun acc av => acc ++ " " ++ av.1 ++ "=\"" ++ av.2 ++ "\"")
    "<Terse" ++ "/>"

/-- ASCII bytes of a string. -/
def strBytes (s : String) : List Nat := s.data.map Char.toNat

/-- Bytes written by `Terse::f_write_metadata`: the XML tag followed by
the raw metadata strings in frame order. -/
def f_write_metadata_bytes (t : TerseC) : List Nat :=
  strBytes (header_string t) ++ catMap id t.d_metadata

/-- `Terse::write(ostream)`: nothing at all when the container holds no
frames; otherwise the header-and-metadata bytes followed by each frame's
bytes. -/
def write_stream (t : TerseC) : List Nat :=
  if number_of_frames t = 0 then []
  else f_write_metadata_bytes t ++ catMap id t.d_terse_frames

/-- `Terse::file_size()`: 0 for an empty container, otherwise the size of
the `f_write_metadata` output plus `terse_size()`. -/
def file_size (t : TerseC) : Nat :=
  if number_of_frames t = 0 then 0
  else (f_write_metadata_bytes t).length + terse_size t

/-- Modelled from the spec: `XML_element.hpp` is not among the sources;
per §4.4.2 the header is a single self-closing ASCII tag whose numeric
attributes are decimal numbers, `XML_element(istream, "Terse")` recovers
each attribute exactly as written (absent attributes read as the empty
string) and leaves the stream just past `/>`.  We therefore hand the
parsing constructor the attribute values as the number lists they
serialise (`istringstream >> val` on the written attribute text yields
exactly the list that was rendered by `natsSpaced`; a single number is a
one-element list; an absent attribute is `[]`). -/
structure XmlAttrs where
  prolix_bits : Nat
  signedA : Nat
  block : Nat
  number_of_values : Nat
  dimensions : List Nat
  number_of_frames : Nat
  memory_sizes_of_frames : List Nat
  memory_size : Nat
  metadata_string_sizes : List Nat

/-- The attributes of `write_attrs t` as the number lists the parser's
`istringstream`s extract from them. -/
def attrs_of (t : TerseC) : XmlAttrs :=
  { prolix_bits := t.d_prolix_bits
    signedA := if t.d_signed then 1 else 0
    block := t.d_block
    number_of_values := t.d_size
    dimensions := t.d_dim
    number_of_frames := number_of_frames t
    memory_sizes_of_frames := t.d_terse_frames.map List.length
    memory_size := terse_size t
    metadata_string_sizes := if t.d_metadata.isEmpty then []
      else t.d_metadata.map List.length }

/-- The stream-reading constructor `Terse(STREAM&, XML_element const&)`
on a stream whose header carries `memory_sizes_of_frames` (so the
header walk is not used).  `body` is the stream content just past `/>`.
For each metadata size `v` the source pushes the placeholder
`std::string(val, ' ')` and then executes
`istream.read((char*)&d_metadata.back(), val)` — the destination is the
address of the `std::string` OBJECT, not of its character buffer, so the
`v` bytes are consumed from the stream but never stored in the string's
contents; the stored value is modelled as the untouched placeholder of
`v` spaces (byte 32).  The frames are then read at their recorded
sizes. -/
def terse_from_stream (a : XmlAttrs) (body : List Nat) : TerseC :=
  let md := a.metadata_string_sizes.map (fun v => List.replicate v 32)
  let rest := body.drop a.metadata_string_sizes.sum
  let frames := ((List.range a.number_of_frames).foldl
    (fun (p : Nat × List (List Nat)) i =>
      let v := a.memory_sizes_of_frames.getD i 0
      (p.1 + v, p.2 ++ [(rest.drop p.1).take v])) (0, [])).2
  { d_prolix_bits := a.prolix_bits
    d_signed := a.signedA ≠ 0
    d_block := a.block
    d_size := a.number_of_values
    d_dim := a.dimensions
    d_metadata := md
    d_terse_frames := frames }

/-- Write-then-parse composition: the constructor consumes the stream
`write` produced, with the XML layer modelled as above (the body handed
over is everything `write_stream` emits after the XML tag). -/
def parsed_of_write (t : TerseC) : TerseC :=
  terse_from_stream (attrs_of t) (catMap id t.d_metadata ++ catMap id t.d_terse_frames)

/-! ### Concrete inputs used by the claim theorems -/

/-- A 24-value `uint8_t` frame (`V = 24`, `B = 12`): both blocks contain
an overload, the first masked block is weak after the `+1` shift, the
second is strong with shifted width `8 = P`. -/
def c1_frame : List Nat :=
  [255, 0, 1, 2, 3, 4, 0, 0, 0, 0, 0, 0,
   255, 254, 0, 0, 0, 0, 0, 0, 0, 0, 0, 0]

/-- A single `uint8_t` block ending in the overload value `2^8 - 1`. -/
def c4_frame : List Nat := [0, 0, 0, 0, 0, 0, 0, 0, 0, 0, 0, 255]

/-- A 13-value `uint8_t` frame (`V = 13`, `B = 12`): the final block has
`block_len = 1` and maximum 2 (radix-3 packed). -/
def c5_frame : List Nat := [0, 0, 0, 0, 0, 0, 0, 0, 0, 0, 0, 0, 2]

/-- The S5 container: two `4×4` `uint8_t` frames filled with the frame
index, compressed in the default Unsigned mode, with metadata strings
`"first"` and `"second-meta"`. -/
def c8_container : TerseC :=
  { d_prolix_bits := 8, d_signed := false, d_block := 12, d_size := 16,
    d_dim := [4, 4],
    d_metadata := [strBytes "first", strBytes "second-meta"],
    d_terse_frames :=
      [terse_frame_bytes (f_compress_unsigned 8 12 (List.replicate 16 0)),
       terse_frame_bytes (f_compress_unsigned 8 12 (List.replicate 16 1))] }

/-- A freshly constructed empty container (all defaults of `Terse()`). -/
def emptyC : TerseC :=
  { d_prolix_bits := 0, d_signed := false, d_block := 12, d_size := 0,
    d_dim := [], d_metadata := [], d_terse_frames := [] }

/-- A container already holding one compressed frame (`V = 12`). -/
def oneFrameC : TerseC :=
  { d_prolix_bits := 8, d_signed := false, d_block := 12, d_size := 12,
    d_dim := [],
    d_metadata := [[]],
    d_terse_frames := [terse_frame_bytes (f_compress_unsigned 8 12 (List.replicate 12 0))] }

/-! ### Facts about `bitlen` and bitwise OR -/

theorem blen_zero (f : Nat) : blen f 0 = 0 := by
  cases f <;> simp [blen]

theorem blen_congr : ∀ f g n : Nat, n ≤ f → n ≤ g → blen f n = blen g n := by
  intro f
  induction f with
  | zero =>
    intro g n hf _
    interval_cases n
    simp [blen_zero]
  | succ f ih =>
    intro g n hf hg
    by_cases hn : n = 0
    · simp [hn, blen_zero]
    · cases g with
      | zero => omega
      | succ g =>
        simp only [blen, if_neg hn]
        have h2 : n / 2 < n := Nat.div_lt_self (by omega) (by omega)
        rw [ih g (n / 2) (by omega) (by omega)]

theorem bitlen_rec (n : Nat) :
    bitlen n = if n = 0 then 0 else bitlen (n / 2) + 1 := by
  by_cases hn : n = 0
  · simp [hn, bitlen, blen_zero]
  · cases n with
    | zero => omega
    | succ m =>
      simp only [bitlen, blen, if_neg hn]
      have h2 : (m + 1) / 2 ≤ m := by omega
      rw [blen_congr m ((m + 1) / 2) ((m + 1) / 2) h2 le_rfl]

theorem bitlen_zero_iff {n : Nat} : bitlen n = 0 ↔ n = 0 := by
  constructor
  · intro h
    by_contra hn
    rw [bitlen_rec, if_neg hn] at h
    omega
  · intro h
    simp [h, bitlen, blen_zero]

theorem lt_two_pow_bitlen (n : Nat) : n < 2 ^ bitlen n := by
  induction n using Nat.strong_induction_on with
  | _ n ih =>
    by_cases hn : n = 0
    · simp [hn, bitlen, blen_zero]
    · rw [bitlen_rec, if_neg hn, pow_succ]
      have h2 : n / 2 < n := Nat.div_lt_self (by omega) (by omega)
      have := ih (n / 2) h2
      omega

theorem bitlen_le_of_lt_pow : ∀ {n k : Nat}, n < 2 ^ k → bitlen n ≤ k := by
  intro n
  induction n using Nat.strong_induction_on with
  | _ n ih =>
    intro k hk
    by_cases hn : n = 0
    · simp [hn, bitlen, blen_zero]
    · rw [bitlen_rec, if_neg hn]
      cases k with
      | zero => simp at hk; omega
      | succ k =>
        have h2 : n / 2 < n := Nat.div_lt_self (by omega) (by omega)
        have hlt : n / 2 < 2 ^ k := by
          rw [pow_succ] at hk
          omega
        have := ih (n / 2) h2 hlt
        omega

theorem le_or_left (a b : Nat) : a ≤ a ||| b :=
  Nat.le_of_testBit (fun i h => by rw [Nat.testBit_lor]; simp [h])

theorem le_or_right (a b : Nat) : b ≤ a ||| b :=
  Nat.le_of_testBit (fun i h => by rw [Nat.testBit_lor]; simp [h])

theorem le_foldl_or (l : List Nat) : ∀ a : Nat, a ≤ l.foldl (· ||| ·) a := by
  induction l with
  | nil => intro a; simp
  | cons b t ih =>
    intro a
    calc a ≤ a ||| b := le_or_left a b
    _ ≤ t.foldl (· ||| ·) (a ||| b) := ih (a ||| b)

theorem mem_le_foldl_or {l : List Nat} {v : Nat} (hv : v ∈ l) :
    ∀ a : Nat, v ≤ l.foldl (· ||| ·) a := by
  induction l with
  | nil => cases hv
  | cons b t ih =>
    intro a
    rcases List.mem_cons.mp hv with h | h
    · subst h
      calc v ≤ a ||| v := le_or_right a v
      _ ≤ t.foldl (· ||| ·) (a ||| v) := le_foldl_or t (a ||| v)
    · exact ih h (a ||| b)

theorem foldl_or_eq_zero {l : List Nat} {a : Nat}
    (h : l.foldl (· ||| ·) a = 0) : ∀ v ∈ l, v = 0 := by
  intro v hv
  have := mem_le_foldl_or hv a
  omega

theorem foldl_or_zero_of_all (l : List Nat) (h : ∀ v ∈ l, v = 0) :
    l.foldl (· ||| ·) 0 = 0 := by
  induction l with
  | nil => rfl
  | cons b t ih =>
    have hb : b = 0 := h b (by simp)
    simp only [List.foldl_cons, hb]
    exact ih (fun v hv => h v (by simp [hv]))


/-! ### The byte position reached by a sequence of pushes -/

theorem wpush_norm (t B : Nat) (hB : B ≤ 64) :
    wpush ⟨8 * (t / 64), t % 64⟩ B = ⟨8 * ((t + B) / 64), (t + B) % 64⟩ := by
  unfold wpush
  dsimp only
  split <;> (simp only [WState.mk.injEq]; constructor <;> omega)

theorem foldl_wpush (ws : List Nat) : ∀ t : Nat, (∀ B ∈ ws, B ≤ 64) →
    ws.foldl wpush ⟨8 * (t / 64), t % 64⟩ =
      ⟨8 * ((t + ws.sum) / 64), (t + ws.sum) % 64⟩ := by
  induction ws with
  | nil => intro t _; simp
  | cons B rest ih =>
    intro t h
    have hB : B ≤ 64 := h B (by simp)
    simp only [List.foldl_cons, List.sum_cons]
    rw [wpush_norm t B hB, ih (t + B) (fun b hb => h b (by simp [hb]))]
    congr 1 <;> omega

/-! ### Soundness of the Signed-mode width choice -/

theorem sigContrib_eq_zero {v : Int} (h : sigContrib v = 0) : v = 0 := by
  by_cases hv1 : v = -1
  · simp [sigContrib, hv1] at h
  · simp only [sigContrib, if_neg hv1] at h
    omega

/-- Claim C6 (amended): in Signed mode the chosen width
`bits = min(bitlength(OR of (v = -1 ? 1 : 2|v|)), P)` is an upper bound —
for any block of values in the `P`-bit two's-complement range, every
value fits in two's complement of width `bits`, and `bits = 0` exactly
when the block is all zeros — but it is not always the minimum such
width (see the counterexample `width_not_minimal_at_minus_two`). -/
theorem signed_width_sound (P : Nat) (l : List Int) (hP : 1 ≤ P)
    (hrange : ∀ v ∈ l, -(2 ^ (P - 1) : Int) ≤ v ∧ v < 2 ^ (P - 1)) :
    (∀ v ∈ l, -(2 ^ (f_most_significant_bit_s P l - 1) : Int) ≤ v ∧
      v < 2 ^ (f_most_significant_bit_s P l - 1)) ∧
    (f_most_significant_bit_s P l = 0 ↔ ∀ v ∈ l, v = 0) := by
  have ho : l.foldl (fun a v => a ||| sigContrib v) 0 =
      (l.map sigContrib).foldl (· ||| ·) 0 :=
    (List.foldl_map sigContrib (· ||| ·) l 0).symm
  constructor
  · intro v hv
    have hc : sigContrib v ≤ l.foldl (fun a v => a ||| sigContrib v) 0 := by
      rw [ho]
      exact mem_le_foldl_or (List.mem_map_of_mem _ hv) 0
    by_cases hcase : bitlen (l.foldl (fun a v => a ||| sigContrib v) 0) ≤ P
    · have hww : f_most_significant_bit_s P l =
          bitlen (l.foldl (fun a v => a ||| sigContrib v) 0) := min_eq_left hcase
      have hlt : sigContrib v < 2 ^ f_most_significant_bit_s P l := by
        rw [hww]
        exact lt_of_le_of_lt hc (lt_two_pow_bitlen _)
      set w := f_most_significant_bit_s P l with hwdef
      by_cases hv0 : v = 0
      · subst hv0
        have hpos : (0 : Int) < 2 ^ (w - 1) := by positivity
        constructor <;> omega
      · by_cases hv1 : v = -1
        · subst hv1
          have hpos : (0 : Int) < 2 ^ (w - 1) := by positivity
          constructor <;> omega
        · have hcv : sigContrib v = 2 * v.natAbs := by
            simp [sigContrib, hv1]
          have h2 : 2 * v.natAbs < 2 ^ w := by rw [← hcv]; exact hlt
          have hw1 : 1 ≤ w := by
            rcases Nat.eq_zero_or_pos w with h | h
            · exfalso
              rw [h] at h2
              simp at h2
              exact hv0 (by omega)
            · exact h
          have hsplit : (2 : Nat) ^ w = 2 * 2 ^ (w - 1) := by
            conv_lhs => rw [show w = (w - 1) + 1 by omega]
            ring
          have h3 : v.natAbs < 2 ^ (w - 1) := by omega
          have hcast : ((2 ^ (w - 1) : Nat) : Int) = 2 ^ (w - 1) := by push_cast; rfl
          rw [← hcast]
          constructor <;> omega
    · push_neg at hcase
      have hww : f_most_significant_bit_s P l = P := min_eq_right (le_of_lt hcase)
      rw [hww]
      exact hrange v hv
  · constructor
    · intro h0 v hv
      have hbo : bitlen (l.foldl (fun a v => a ||| sigContrib v) 0) = 0 := by
        rcases Nat.min_eq_zero_iff.mp h0 with h | h
        · exact h
        · omega
      have ho0 : (l.map sigContrib).foldl (· ||| ·) 0 = 0 := by
        rw [← ho]
        exact bitlen_zero_iff.mp hbo
      exact sigContrib_eq_zero
        (foldl_or_eq_zero ho0 _ (List.mem_map_of_mem _ hv))
    · intro hall
      have ho0 : l.foldl (fun a v => a ||| sigContrib v) 0 = 0 := by
        rw [ho]
        apply foldl_or_zero_of_all
        intro x hx
        obtain ⟨v, hv, rfl⟩ := List.mem_map.mp hx
        simp [sigContrib, hall v hv]
      simp [f_most_significant_bit_s, ho0, bitlen, blen_zero]

/-! ### The weak-path delta headers of `f_get_max` -/

theorem readBits_cons_one (b : Bool) (r : List Bool) :
    readBits (b :: r) 0 1 = if b then 1 else 0 := by
  simp [readBits, bitsToNat]

/-- Claim C7 (amended): in Small-unsigned weak-path decoding with
`prev_max = m ≠ 0`, the 2-bit delta header `10` (LSB first) sets the new
block maximum to `m - 1` unconditionally, while the header `01` sets it
to `m + 1` with the special case `m = 6 ↦ 4`; the `prev_max = 6 ↦ 4`
special case of the claim belongs to the `01` (increment) header, not to
`10`. -/
theorem f_get_max_deltas (P m b : Nat) (r : List Bool) (hm : m ≠ 0)
    (hmP : m + 1 < 2 ^ P) :
    (f_get_max P ([true, false] ++ r) 0 m b).1 = m - 1 ∧
    (f_get_max P ([false, true] ++ r) 0 m b).1 = (if m = 6 then 4 else m + 1) := by
  have h10a : readBits ([true, false] ++ r) 0 1 = 1 := by
    simp [readBits, bitsToNat]
  have h10b : readBits ([true, false] ++ r) 1 1 = 0 := by
    simp [readBits, bitsToNat]
  have h01a : readBits ([false, true] ++ r) 0 1 = 0 := by
    simp [readBits, bitsToNat]
  have h01b : readBits ([false, true] ++ r) 1 1 = 1 := by
    simp [readBits, bitsToNat]
  constructor
  · simp only [f_get_max, h10a, h10b]
    norm_num [hm]
    have hsum : m + (2 ^ P - 1) = 2 ^ P + (m - 1) := by omega
    rw [hsum, Nat.add_mod_left]
    exact Nat.mod_eq_of_lt (by omega)
  · simp only [f_get_max, h01a, h01b]
    norm_num [hm]
    split
    · omega
    · exact Nat.mod_eq_of_lt (by omega)

/-! ### Claim theorems -/

/-- Claim C1: the spec states `decode(encode(v, mode)) == v` for every
legal mode, including Small-unsigned.  This evaluates the code at a
failing input: for the 24-value `uint8_t` frame `c1_frame` (two blocks
that both contain an overload, the second with shifted width
`8 = P`), Small-unsigned compression followed by `prolix` does NOT
return the original frame — position 12 (value 255) decodes to 1,
because `f_compress_masked` initialises its carried state to
`prevbits = P + 1`, `prevmax = 2^P - 1` while the decoder
`f_prolix_small_unsigned_masked` starts from `bits = 0`,
`max = 2^P/2 - 1`, so the encoder emits a `prevbits - 1` delta header
that the decoder applies to a different `bits`. -/
theorem c1_small_unsigned_roundtrip_fails :
    f_prolix_nat 8 12 24 (f_compress_small_unsigned 8 12 c1_frame) ≠ c1_frame ∧
    (f_prolix_nat 8 12 24 (f_compress_small_unsigned 8 12 c1_frame)).getD 12 0 = 1 ∧
    c1_frame.getD 12 0 = 255 := by decide

/-- Claim C2 (counterexample): the one-value signed frame `[0]`
(1 header bit pushed) is trimmed to a single byte, and 1 is not
divisible by 8 — compressed frames are NOT padded to a multiple of 8
(the container doc's own example sizes `45694` agree). -/
theorem frame_length_not_multiple_of_8 :
    frame_byte_size (f_compress_signed 32 12 [(0 : Int)]) = 1 ∧
    ¬ (8 ∣ frame_byte_size (f_compress_signed 32 12 [(0 : Int)])) := by decide

/-- Claim C2 (amended): the final `terse_frame.resize(bitqueue - data())`
of `f_compress` trims the frame to `8⌊n/64⌋ + ⌈(n mod 64)/8⌉` bytes,
where `n` is the total number of bits pushed: for any sequence of pushes
of widths `≤ 64`, the byte position plus the rounded-up pending bits of
`Bitqueue_push_back::operator-` equals `resize_len` of the total width.
This count is a multiple of 8 only when `n mod 64` is 0 or above 56. -/
theorem resize_length_formula (ws : List Nat) (h : ∀ B ∈ ws, B ≤ 64) :
    wlen (ws.foldl wpush ⟨0, 0⟩) = resize_len ws.sum := by
  have h0 : (⟨0, 0⟩ : WState) = ⟨8 * (0 / 64), 0 % 64⟩ := by norm_num
  rw [h0, foldl_wpush ws 0 h]
  simp [wlen, resize_len]

/-- Witness for `resize_length_formula` at the concrete push sequence
18, 6, 4, 12 (total 40 bits). -/
theorem resize_length_formula_witness :
    wlen (([18, 6, 4, 12] : List Nat).foldl wpush ⟨0, 0⟩) = resize_len 40 := by
  have h := resize_length_formula [18, 6, 4, 12] (by decide)
  simpa using h

/-- Claim C3: the header-only walk of `f_fill_terse_frames` is claimed to
recover the recorded per-frame byte lengths.  Evaluating the code at a
failing input: the signed one-value frame `[0]` compresses to 1 byte
(what `write()` records in `memory_sizes_of_frames`), but the walk —
with `Bitqueue_pop`'s `skip` and `operator-` modelled exactly, including
`operator-` counting the un-consumed `d_buffered_bits` as
`⌈d_buffered_bits/8⌉` bytes beyond `d_data` — reports 8 bytes. -/
theorem header_walk_diverges :
    walk_frame_size (terse_frame_bytes (f_compress_signed 32 12 [(0 : Int)])) 1 12 = 8 ∧
    frame_byte_size (f_compress_signed 32 12 [(0 : Int)]) = 1 := by decide

/-- Claim C4 (counterexample): in Unsigned mode with `P = 8`, encode the
block `c4_frame` ending in the overload `255 = 2^P - 1` (a masked
block); the decoder does subtract 1 from each decoded value, but the
pixel that was originally `2^P - 1` decodes to 255, not to 0. -/
theorem wrap_pixel_not_zero :
    (f_prolix_nat 8 12 12 (f_compress_unsigned 8 12 c4_frame)).getD 11 0 ≠ 0 := by decide

/-- Claim C4 (amended): in Unsigned-mode decoding of a masked block the
decoder subtracts 1 modulo `2^P` from each decoded payload value
(`--begin[i]` on the unsigned element), so the pixel that was wrapped to
0 by the `+1` shift at encode time decodes back to `2^P - 1` and the
whole frame round-trips exactly (a signed consumer of the same bit
pattern would read -1). -/
theorem masked_decode_subtracts_mod :
    f_prolix_nat 8 12 12 (f_compress_unsigned 8 12 c4_frame) = c4_frame ∧
    (f_prolix_nat 8 12 12 (f_compress_unsigned 8 12 c4_frame)).getD 11 0 = 255 := by
  decide

/-- Claim C5 (counterexample): for `V = 13`, `B = 12` the final
Small-unsigned block has `block_len = 1` and maximum 2; the ENCODER packs
it in `f_most_significant_bit(3^1 - 1) = 2` bits (26 bits total in the
frame), but the DECODER pops `f_most_significant_bit(3^12 - 1) = 20`
bits — `std::pow(3, block)` uses the full clamped block size — consuming
44 bits of a 26-bit frame.  So the decoder does not compute the radix
width from the actual `block_len`. -/
theorem decoder_width_from_full_block :
    (f_compress_small_unsigned 8 12 c5_frame).length = 26 ∧
    (f_prolix_small_unsigned 8 12 13 (f_compress_small_unsigned 8 12 c5_frame)).2 = 44 ∧
    f_msb64 (3 ^ 1 - 1) = 2 ∧ f_msb64 (3 ^ 12 - 1) = 20 := by decide

/-- Claim C5 (amended): the final block has `block_len = V mod B` and the
encoder computes its headers and radix widths from the actual
`block_len` (the whole frame here is 18 + 1 + 5 + 2 = 26 bits, the 2
being `f_most_significant_bit(3^1 - 1)`); the decoder computes the
weak-path radix width from the full clamped block size `B` and so
consumes 44 bits — beyond even the `8 × 4 = 32` bits of the stored
4-byte frame, i.e. into the uninitialized remainder of `d_buffer`
(whose constructor copies only `min(size, 8)` bytes), so the decoded
final block is not determined by the stream.  Every quantity asserted
here (frame length, stored size, consumed position) is computed from
headers inside the written prefix and is independent of those
uninitialized bits. -/
theorem decoder_overreads_stored_frame :
    (f_compress_small_unsigned 8 12 c5_frame).length = 26 ∧
    frame_byte_size (f_compress_small_unsigned 8 12 c5_frame) = 4 ∧
    (f_prolix_small_unsigned 8 12 13 (f_compress_small_unsigned 8 12 c5_frame)).2 = 44 ∧
    8 * frame_byte_size (f_compress_small_unsigned 8 12 c5_frame) < 44 := by
  decide

/-- Claim C6 (counterexample): for the block `[-2]` the code chooses
width `f_most_significant_bit = bitlength(|-2| << 1) = 3`, yet `-2`
already fits in two's complement of width 2 (`-2^1 ≤ -2 < 2^1`), so the
chosen width is not the minimum `w` such that every value of the block
fits in two's complement of width `w` (the spec's formula
`⌈log₂ max(|v|,|v+1|)⌉ + 1` also gives 2). -/
theorem width_not_minimal_at_minus_two :
    f_most_significant_bit_s 8 [(-2 : Int)] = 3 ∧
    (∀ v ∈ [(-2 : Int)], -(2 ^ (2 - 1) : Int) ≤ v ∧ v < 2 ^ (2 - 1)) ∧
    (2 : Nat) < 3 := by decide

/-- Witness for `signed_width_sound` at `P = 8`,
`l = [3, -2, 0]`. -/
theorem signed_width_sound_witness :
    (∀ v ∈ [(3 : Int), -2, 0],
      -(2 ^ (f_most_significant_bit_s 8 [(3 : Int), -2, 0] - 1) : Int) ≤ v ∧
      v < 2 ^ (f_most_significant_bit_s 8 [(3 : Int), -2, 0] - 1)) ∧
    (f_most_significant_bit_s 8 [(3 : Int), -2, 0] = 0 ↔
      ∀ v ∈ [(3 : Int), -2, 0], v = 0) :=
  signed_width_sound 8 [3, -2, 0] (by norm_num) (by decide)

/-- Claim C7 (counterexample): reading the delta header `10` (LSB first,
i.e. bits `true, false`) with `prev_max = 6` yields new max `5`, not the
claimed special-case value `4`. -/
theorem header10_gives_5_at_6 :
    (f_get_max 8 [true, false] 0 6 6).1 = 5 ∧ (5 : Nat) ≠ 4 := by decide

/-- Witness for `f_get_max_deltas` at `P = 8`, `m = 6`, `b = 3`. -/
theorem f_get_max_deltas_witness :
    (f_get_max 8 ([true, false] ++ []) 0 6 3).1 = 6 - 1 ∧
    (f_get_max 8 ([false, true] ++ []) 0 6 3).1 = (if 6 = 6 then 4 else 6 + 1) :=
  f_get_max_deltas 8 6 3 [] (by decide) (by decide)

/-- Claim C8: writing the S5 container (two 4×4 frames with metadata
"first" and "second-meta") and re-parsing the stream is claimed to
restore the metadata.  Evaluating the code at this failing input: the
frame count and both frames survive (each decompresses to the original
pixels), but the parsed metadata is the untouched placeholder of spaces,
not "first" — the constructor executes
`istream.read((char*)&d_metadata.back(), val)`, which consumes the bytes
from the stream but stores them over the `std::string` OBJECT rather
than into its character buffer. -/
theorem metadata_read_corrupted :
    number_of_frames (parsed_of_write c8_container) = 2 ∧
    (parsed_of_write c8_container).d_metadata.getD 0 [] = List.replicate 5 32 ∧
    (parsed_of_write c8_container).d_metadata.getD 0 [] ≠ strBytes "first" ∧
    f_prolix_nat 8 12 16
      (bits_of_bytes ((parsed_of_write c8_container).d_terse_frames.getD 0 [])) =
      List.replicate 16 0 ∧
    f_prolix_nat 8 12 16
      (bits_of_bytes ((parsed_of_write c8_container).d_terse_frames.getD 1 [])) =
      List.replicate 16 1 := by decide

/-- Claim C9 (counterexample): calling `block_size(7)` on a container
that already holds one compressed frame returns normally — the setter is
total and `noexcept`, no `IncompatibleFrame` (or any other) error is
surfaced — and leaves the container, including its block size 12,
completely unchanged. -/
theorem block_size_silent_noop :
    block_size_set oneFrameC 7 = oneFrameC ∧
    (block_size_set oneFrameC 7).d_block = 12 := by decide

/-- Claim C9 (amended): `block_size(b)` sets `B` to `b` exactly on an
empty container; on a non-empty container it silently leaves the whole
container unchanged and reports no error. -/
theorem block_size_behaviour (t : TerseC) (b : Nat) :
    (number_of_frames t = 0 → (block_size_set t b).d_block = b) ∧
    (number_of_frames t ≠ 0 → block_size_set t b = t) := by
  constructor
  · intro h
    simp [block_size_set, h]
  · intro h
    simp [block_size_set, h]

/-- Witness for `block_size_behaviour` on the empty and the one-frame
containers. -/
theorem block_size_behaviour_witness :
    (block_size_set emptyC 7).d_block = 7 ∧ block_size_set oneFrameC 7 = oneFrameC :=
  ⟨(block_size_behaviour emptyC 7).1 rfl,
   (block_size_behaviour oneFrameC 7).2 (by decide)⟩

/-- Claim C10: `write(ostream)` on a container with zero frames writes
nothing at all (the function returns before emitting the XML header),
and `file_size()` of an empty container is 0. -/
theorem empty_container_writes_nothing (t : TerseC) (h : number_of_frames t = 0) :
    write_stream t = [] ∧ file_size t = 0 := by
  simp [write_stream, file_size, h]

/-- Witness for `empty_container_writes_nothing` on a freshly
constructed container. -/
theorem empty_container_writes_nothing_witness :
    write_stream emptyC = [] ∧ file_size emptyC = 0 :=
  empty_container_writes_nothing emptyC rfl

end Trpx
